import Mathlib

/- Verification of the tproxy TCP relay (src/main.rs) against its
   natural-language specification.

   The embedding models:
   - the shared `State` struct (counters and the peer-address map);
   - `forward`, parameterized by the outcome of the upstream connect and by
     the two relay directions' outcomes;
   - `tokio::try_join!` as a lockstep polling model over two futures, each
     characterized by the poll round at which it completes and its result;
   - `tokio::io::copy` as a chunked copy loop;
   - `listen` over an abstract stream of accept events;
   - a small-step trace model in which the four lock-guarded State updates
     performed by concurrently running `forward` tasks interleave arbitrarily.

   The `usize` counters are modelled as `Int` so that the decrement at
   src/main.rs line 110 is a genuine subtraction and non-negativity of
   `active_connections` is a provable invariant rather than a typing artifact. -/

namespace TProxy

/-- Model of `std::net::SocketAddr`: an (IP, port) pair, with IPs abstracted
to naturals. -/
structure SocketAddr where
  ip : Nat
  port : Nat
deriving DecidableEq

/-- Model of `std::io::Error`: an abstract error code. -/
structure IOErr where
  code : Nat
deriving DecidableEq

/-- Model of the `State` struct of src/main.rs lines 47-52. The `usize`
counters are modelled as `Int` (see header comment); the
`HashMap<SocketAddr, ()>` is modelled by the list of its keys. -/
structure State where
  active_connections : Int
  completed_connections : Int
  by_addr : List SocketAddr
deriving DecidableEq

/-- Model of `State::new` (src/main.rs lines 54-62). -/
def State.new : State :=
  { active_connections := 0, completed_connections := 0, by_addr := [] }

/-- Key-set effect of `HashMap::insert(addr, ())` (src/main.rs line 94):
inserting a present key overwrites its unit value, leaving the key set
unchanged; a new key is added. -/
def hmInsert (a : SocketAddr) (l : List SocketAddr) : List SocketAddr :=
  if a ∈ l then l else a :: l

/-- The four lock-guarded State updates performed by `forward`
(src/main.rs lines 93, 94, 110, 111). -/
inductive Op where
  | incActive
  | insertAddr (a : SocketAddr)
  | decActive
  | incCompleted
deriving DecidableEq

/-- Effect of one lock-guarded update on the shared State. -/
def applyOp : Op → State → State
  | .incActive, st => { st with active_connections := st.active_connections + 1 }
  | .insertAddr a, st => { st with by_addr := hmInsert a st.by_addr }
  | .decActive, st => { st with active_connections := st.active_connections - 1 }
  | .incCompleted, st => { st with completed_connections := st.completed_connections + 1 }

/-- Step 2 of `forward` (src/main.rs lines 93-94): increment
`active_connections`, then insert the downstream address. -/
def registerConn (a : SocketAddr) (st : State) : State :=
  applyOp (.insertAddr a) (applyOp .incActive st)

/-- Step 4 of `forward` (src/main.rs lines 110-111): decrement
`active_connections`, then increment `completed_connections`. -/
def deregisterConn (st : State) : State :=
  applyOp .incCompleted (applyOp .decActive st)

/-- One relay direction (the async blocks of src/main.rs lines 98-106), seen
as a future: `steps` is the poll round at which it completes, `result` is
what it completes with (Ok after copy + shutdown, or the first I/O error). -/
structure Dir where
  steps : Nat
  result : Except IOErr Unit

instance : DecidableEq (Except IOErr Unit) := fun a b =>
  match a, b with
  | .ok (), .ok () => isTrue rfl
  | .error e1, .error e2 =>
      if h : e1 = e2 then isTrue (by rw [h]) else
        isFalse (fun hc => by cases hc; exact h rfl)
  | .ok (), .error _ => isFalse (fun hc => by cases hc)
  | .error _, .ok () => isFalse (fun hc => by cases hc)

/-- Outcome of `tokio::try_join!` on two futures: the combined result, and
whether each future ran to completion (rather than being dropped while still
pending when the macro returned early on an error). -/
structure TryJoinOut where
  result : Except IOErr Unit
  firstCompleted : Bool
  secondCompleted : Bool
deriving DecidableEq

/-- Model of `tokio::try_join!(client_to_server, server_to_client)`
(src/main.rs line 108). Both futures are polled each round, the first
argument first; the macro completes with Ok only when both have completed
with Ok, and returns the first observed error immediately, dropping (and so
cancelling) any future that has not completed by that round. -/
def tryJoin (d1 d2 : Dir) : TryJoinOut :=
  match d1.result, d2.result with
  | .ok _, .ok _ => ⟨.ok (), true, true⟩
  | .error e, .ok _ => ⟨.error e, true, decide (d2.steps < d1.steps)⟩
  | .ok _, .error e => ⟨.error e, decide (d1.steps ≤ d2.steps), true⟩
  | .error e1, .error e2 =>
      if d1.steps ≤ d2.steps then ⟨.error e1, true, false⟩
      else ⟨.error e2, false, true⟩

/-- Error type of `forward`, tagged by the site that produced it: the
upstream connect of line 92 or the relay of line 108 (the spec's
`UpstreamConnectError` and `RelayError`). -/
inductive ForwardError where
  | upstreamConnectError (e : IOErr)
  | relayError (e : IOErr)
deriving DecidableEq

/-- Model of `forward` (src/main.rs lines 86-114), parameterized by the
outcome of `TcpStream::connect` and by the two relay directions. The `?` on
line 92 returns the connect error before any State update; the `?` on
line 108 returns the first relay error after Step 2 but before Step 4. -/
def forward (connect : Except IOErr Unit) (d1 d2 : Dir) (downstream_addr : SocketAddr)
    (st : State) : State × Except ForwardError Unit :=
  match connect with
  | .error e => (st, .error (.upstreamConnectError e))
  | .ok _ =>
      let st2 := registerConn downstream_addr st
      match (tryJoin d1 d2).result with
      | .error e => (st2, .error (.relayError e))
      | .ok _ => (deregisterConn st2, .ok ())

/-- One iteration's worth of input to the accept loop of `listen`
(src/main.rs line 67): either `accept` succeeds — yielding a downstream
address and, eventually, the spawned `forward` task's discarded result — or
`accept` itself fails. -/
inductive AcceptEvent where
  | acceptOk (downstream_addr : SocketAddr) (forwardResult : Except ForwardError Unit)
  | acceptErr (e : IOErr)

/-- Model of the `while let Ok(...)` loop of src/main.rs lines 67-81: a
successful accept spawns a fire-and-forget task (its result is discarded by
the `map` closure) and the loop continues; an accept failure exits the loop,
after which `listen` returns `Ok(())` (line 83). -/
def acceptLoop : List AcceptEvent → Except IOErr Unit
  | [] => .ok ()
  | .acceptOk _ _ :: rest => acceptLoop rest
  | .acceptErr _ :: _ => .ok ()

/-- Model of `listen` (src/main.rs lines 64-84): the `?` on line 65
propagates a bind failure; otherwise the accept loop runs. -/
def listen (bindResult : Except IOErr Unit) (events : List AcceptEvent) :
    Except IOErr Unit :=
  match bindResult with
  | .error e => .error e
  | .ok _ => acceptLoop events

/-- Model of the loop inside `tokio::io::copy` (used at src/main.rs lines 99
and 104): each iteration reads up to `bufSize` bytes from the source (a
cooperative reader yields `min bufSize remaining` bytes), writes that chunk
in full to the destination, and the loop ends when a read returns 0 bytes
(end of stream). The value is the concatenation of all written chunks. -/
def copyRun (bufSize : Nat) (src : List Nat) : List Nat :=
  if src = [] ∨ bufSize = 0 then []
  else src.take bufSize ++ copyRun bufSize (src.drop bufSize)
termination_by src.length
decreasing_by
  rename_i h
  push_neg at h
  have h1 : 0 < src.length := List.length_pos.mpr h.1
  have h2 : 0 < bufSize := Nat.pos_of_ne_zero h.2
  simp only [List.length_drop]
  omega

/-- The four stream halves produced by the two `split()` calls of
src/main.rs lines 95-96. -/
inductive Half where
  | downRead
  | downWrite
  | upRead
  | upWrite
deriving DecidableEq

/-- Observable events of one relay direction. -/
inductive RelayEv where
  | copyDone (src dst : Half)
  | halfClose (dst : Half)
deriving DecidableEq

/-- Events emitted by one direction's async block (src/main.rs lines 98-101
and 103-106): when the copy completes at end of stream, `shutdown()` of the
destination write half follows it; when the copy fails, the `?` aborts the
block before the shutdown, so no half-close is emitted. -/
def dirEvents (src dst : Half) (copyResult : Except IOErr Unit) : List RelayEv :=
  match copyResult with
  | .ok _ => [.copyDone src dst, .halfClose dst]
  | .error _ => []

/-- The `client_to_server` block (src/main.rs lines 98-101): copies the
downstream read half to the upstream write half, then shuts down the
upstream write half. -/
def clientToServer (copyResult : Except IOErr Unit) : List RelayEv :=
  dirEvents .downRead .upWrite copyResult

/-- The `server_to_client` block (src/main.rs lines 103-106): copies the
upstream read half to the downstream write half, then shuts down the
downstream write half. -/
def serverToClient (copyResult : Except IOErr Unit) : List RelayEv :=
  dirEvents .upRead .downWrite copyResult

/-- The stream halves a direction touches while copying. -/
def dirUses (src dst : Half) : List Half := [src, dst]

/-- The State updates a single `forward` task performs, by outcome:
a failed upstream connect touches nothing; a relay failure performs only
Step 2 (the `?` on line 108 skips Step 4); a successful relay performs
Step 2 then Step 4. -/
inductive Script where
  | connectFail
  | relayErr (a : SocketAddr)
  | relayOk (a : SocketAddr)
deriving DecidableEq

/-- The ordered lock-guarded updates of a `forward` task with the given
outcome. -/
def scriptOps : Script → List Op
  | .connectFail => []
  | .relayErr a => [.incActive, .insertAddr a]
  | .relayOk a => [.incActive, .insertAddr a, .decActive, .incCompleted]

/-- System configuration: the shared State plus, for every dispatched
`forward` task, its outcome script and how many of its updates have already
executed. -/
structure Sys where
  st : State
  conns : List (Script × Nat)

/-- Initial configuration (src/main.rs line 34): fresh State, no tasks. -/
def Sys.start : Sys := ⟨State.new, []⟩

/-- Small-step semantics of the system. `spawn` dispatches a new `forward`
task (the accept loop of `listen`); `exec` lets one pending task perform its
next lock-guarded State update. The label records which update ran. Tasks
interleave arbitrarily, but each task's own updates happen in program
order — this is exactly what the per-field `Mutex` of src/main.rs gives. -/
inductive SysStep : Sys → Option Op → Sys → Prop where
  | spawn (st : State) (cs : List (Script × Nat)) (s : Script) :
      SysStep ⟨st, cs⟩ none ⟨st, (s, 0) :: cs⟩
  | exec (st : State) (pre post : List (Script × Nat)) (s : Script) (k : Nat) (op : Op)
      (h : (scriptOps s)[k]? = some op) :
      SysStep ⟨st, pre ++ (s, k) :: post⟩ (some op)
        ⟨applyOp op st, pre ++ (s, k + 1) :: post⟩

/-- Reachability from the initial configuration. -/
def Reachable (sys : Sys) : Prop :=
  Relation.ReflTransGen (fun x y => ∃ l, SysStep x l y) Sys.start sys

/-- Contribution of one task to `active_connections`: 1 between its
increment and its decrement (a task whose relay failed never decrements),
0 otherwise. -/
def activeC : Script × Nat → Int
  | (.connectFail, _) => 0
  | (.relayErr _, k) => if 1 ≤ k then 1 else 0
  | (.relayOk _, k) => if 1 ≤ k ∧ k ≤ 2 then 1 else 0

/-- Sum of all tasks' contributions to `active_connections`. -/
def sysActive (cs : List (Script × Nat)) : Int :=
  (cs.map activeC).sum

/-- Trace invariant: `active_connections` equals the sum of the per-task
contributions. -/
def Inv (sys : Sys) : Prop :=
  sys.st.active_connections = sysActive sys.conns

/-- Concrete address used in witnesses. -/
def addr0 : SocketAddr := ⟨1, 80⟩

/-- Second concrete address used in witnesses. -/
def addr1 : SocketAddr := ⟨2, 443⟩

theorem sysActive_append (pre post : List (Script × Nat)) (c : Script × Nat) :
    sysActive (pre ++ c :: post) = sysActive pre + activeC c + sysActive post := by
  simp only [sysActive, List.map_append, List.map_cons, List.sum_append, List.sum_cons]
  ring

theorem activeC_nonneg (c : Script × Nat) : 0 ≤ activeC c := by
  rcases c with ⟨s, k⟩
  cases s with
  | connectFail => simp [activeC]
  | relayErr a =>
      simp only [activeC]
      split <;> norm_num
  | relayOk a =>
      simp only [activeC]
      split <;> norm_num

theorem sysActive_nonneg (cs : List (Script × Nat)) : 0 ≤ sysActive cs := by
  refine List.sum_nonneg ?_
  intro x hx
  simp only [List.mem_map] at hx
  obtain ⟨c, -, rfl⟩ := hx
  exact activeC_nonneg c

theorem inv_step {s₁ s₂ : Sys} {l : Option Op} (hstep : SysStep s₁ l s₂)
    (hinv : Inv s₁) : Inv s₂ := by
  cases hstep with
  | spawn st cs s =>
      unfold Inv at hinv ⊢
      simp only [sysActive, List.map_cons, List.sum_cons] at hinv ⊢
      have hz : activeC (s, 0) = 0 := by cases s <;> simp [activeC]
      rw [hz]
      simpa using hinv
  | exec st pre post s k op h =>
      unfold Inv at hinv ⊢
      simp only at hinv ⊢
      rw [sysActive_append] at hinv ⊢
      cases s with
      | connectFail => simp [scriptOps] at h
      | relayErr a =>
          rcases k with _ | _ | k
          · simp only [scriptOps, List.getElem?_cons_zero, Option.some.injEq] at h
            subst h
            simp only [applyOp, activeC] at hinv ⊢
            norm_num at hinv ⊢
            omega
          · simp only [scriptOps, List.getElem?_cons_succ, List.getElem?_cons_zero,
              Option.some.injEq] at h
            subst h
            simp only [applyOp, activeC] at hinv ⊢
            norm_num at hinv ⊢
            omega
          · simp [scriptOps] at h
      | relayOk a =>
          rcases k with _ | _ | _ | _ | k
          · simp only [scriptOps, List.getElem?_cons_zero, Option.some.injEq] at h
            subst h
            simp only [applyOp, activeC] at hinv ⊢
            norm_num at hinv ⊢
            omega
          · simp only [scriptOps, List.getElem?_cons_succ, List.getElem?_cons_zero,
              Option.some.injEq] at h
            subst h
            simp only [applyOp, activeC] at hinv ⊢
            norm_num at hinv ⊢
            omega
          · simp only [scriptOps, List.getElem?_cons_succ, List.getElem?_cons_zero,
              Option.some.injEq] at h
            subst h
            simp only [applyOp, activeC] at hinv ⊢
            norm_num at hinv ⊢
            omega
          · simp only [scriptOps, List.getElem?_cons_succ, List.getElem?_cons_zero,
              Option.some.injEq] at h
            subst h
            simp only [applyOp, activeC] at hinv ⊢
            norm_num at hinv ⊢
            omega
          · simp [scriptOps] at h

theorem reachable_inv {sys : Sys} (h : Reachable sys) : Inv sys := by
  unfold Reachable at h
  induction h with
  | refl => simp [Inv, Sys.start, State.new, sysActive]
  | tail _ hbc ih =>
      obtain ⟨l, hstep⟩ := hbc
      exact inv_step hstep ih

theorem applyOp_by_addr_mono (op : Op) (st : State) (b : SocketAddr)
    (hb : b ∈ st.by_addr) : b ∈ (applyOp op st).by_addr := by
  cases op with
  | insertAddr a =>
      simp only [applyOp, hmInsert]
      split
      · exact hb
      · exact List.mem_cons_of_mem a hb
  | incActive => exact hb
  | decActive => exact hb
  | incCompleted => exact hb

theorem acceptLoop_always_ok (events : List AcceptEvent) : acceptLoop events = .ok () := by
  induction events with
  | nil => rfl
  | cons e rest ih => cases e <;> simp [acceptLoop, ih]

/-- C1 fails on the code: with a successful upstream connect and a relay
that fails (the first direction errors at poll round 1 while the second
would need 5 rounds), forward returns the relay error with
active_connections still 1 and completed_connections still 0 — the question
mark on src/main.rs line 108 returns before the Step 4 deregistration can
run, so the increment of Step 2 is left without a matching decrement. -/
theorem forward_relay_error_skips_deregister_cex :
    forward (.ok ()) ⟨1, .error ⟨7⟩⟩ ⟨5, .ok ()⟩ addr0 State.new =
      (⟨1, 0, [addr0]⟩, .error (.relayError ⟨7⟩)) ∧
    (forward (.ok ()) ⟨1, .error ⟨7⟩⟩ ⟨5, .ok ()⟩ addr0 State.new).1 ≠
      deregisterConn (registerConn addr0 State.new) := by
  exact ⟨rfl, by decide⟩

/-- C1 amended: once Step 2 completed, the Step 4 deregistration executes
before forward returns exactly when the Step 3 relay succeeded; when the
relay fails, forward returns the RelayError with active_connections still
incremented and completed_connections unchanged. -/
theorem forward_deregister_iff_relay_ok (d1 d2 : Dir) (a : SocketAddr) (st : State) :
    ((tryJoin d1 d2).result = .ok () →
      forward (.ok ()) d1 d2 a st = (deregisterConn (registerConn a st), .ok ())) ∧
    (∀ e : IOErr, (tryJoin d1 d2).result = .error e →
      forward (.ok ()) d1 d2 a st = (registerConn a st, .error (.relayError e))) := by
  constructor
  · intro h
    simp [forward, h]
  · intro e h
    simp [forward, h]

theorem forward_deregister_iff_relay_ok_witness :
    forward (.ok ()) ⟨1, .ok ()⟩ ⟨1, .ok ()⟩ addr0 State.new =
      (deregisterConn (registerConn addr0 State.new), .ok ()) ∧
    forward (.ok ()) ⟨1, .error ⟨7⟩⟩ ⟨5, .ok ()⟩ addr1 State.new =
      (registerConn addr1 State.new, .error (.relayError ⟨7⟩)) :=
  ⟨(forward_deregister_iff_relay_ok ⟨1, .ok ()⟩ ⟨1, .ok ()⟩ addr0 State.new).1 rfl,
    (forward_deregister_iff_relay_ok ⟨1, .error ⟨7⟩⟩ ⟨5, .ok ()⟩ addr1 State.new).2 ⟨7⟩ rfl⟩

/-- C2: when the upstream connect of Step 1 fails, forward returns the
connect error and the shared State is completely unchanged — in particular,
starting from the fresh State the counters stay 0 and 0 and the address set
stays empty. -/
theorem forward_connect_error_state_untouched (e : IOErr) (d1 d2 : Dir)
    (a : SocketAddr) (st : State) :
    forward (.error e) d1 d2 a st = (st, .error (.upstreamConnectError e)) ∧
    forward (.error e) d1 d2 a State.new =
      (⟨0, 0, []⟩, .error (.upstreamConnectError e)) :=
  ⟨rfl, rfl⟩

/-- C3 fails on the code: when the second direction fails at poll round 1
while the first direction would need 5 rounds, try_join returns the error
immediately, with the first direction not run to completion — it is dropped
(cancelled) because the other direction failed. -/
theorem tryJoin_cancels_unfinished_cex :
    (tryJoin ⟨5, .ok ()⟩ ⟨1, .error ⟨3⟩⟩).result = .error ⟨3⟩ ∧
    (tryJoin ⟨5, .ok ()⟩ ⟨1, .error ⟨3⟩⟩).firstCompleted = false := by
  decide

/-- C3 amended: when both directions succeed the relay joins on both,
completing with Ok only once both directions have run to completion; when a
direction fails with an I/O error, try_join returns that error as soon as it
is observed, and the other direction has run to completion only if it had
already finished by that poll round — otherwise it is cancelled rather than
given the chance to finish. -/
theorem tryJoin_join_semantics (d1 d2 : Dir) :
    (∀ u v : Unit, d1.result = .ok u → d2.result = .ok v →
      tryJoin d1 d2 = ⟨.ok (), true, true⟩) ∧
    (∀ (e : IOErr) (u : Unit), d1.result = .error e → d2.result = .ok u →
      (tryJoin d1 d2).result = .error e ∧
        ((tryJoin d1 d2).secondCompleted = true ↔ d2.steps < d1.steps)) ∧
    (∀ (e : IOErr) (u : Unit), d2.result = .error e → d1.result = .ok u →
      (tryJoin d1 d2).result = .error e ∧
        ((tryJoin d1 d2).firstCompleted = true ↔ d1.steps ≤ d2.steps)) := by
  refine ⟨?_, ?_, ?_⟩
  · intro u v h1 h2
    simp [tryJoin, h1, h2]
  · intro e u h1 h2
    constructor
    · simp [tryJoin, h1, h2]
    · simp [tryJoin, h1, h2]
  · intro e u h1 h2
    constructor
    · simp [tryJoin, h1, h2]
    · simp [tryJoin, h1, h2]

theorem tryJoin_join_semantics_witness :
    tryJoin ⟨2, .ok ()⟩ ⟨3, .ok ()⟩ = ⟨.ok (), true, true⟩ ∧
    ((tryJoin ⟨4, .error ⟨9⟩⟩ ⟨2, .ok ()⟩).result = .error ⟨9⟩ ∧
      ((tryJoin ⟨4, .error ⟨9⟩⟩ ⟨2, .ok ()⟩).secondCompleted = true ↔ 2 < 4)) ∧
    ((tryJoin ⟨2, .ok ()⟩ ⟨4, .error ⟨9⟩⟩).result = .error ⟨9⟩ ∧
      ((tryJoin ⟨2, .ok ()⟩ ⟨4, .error ⟨9⟩⟩).firstCompleted = true ↔ 2 ≤ 4)) :=
  ⟨(tryJoin_join_semantics ⟨2, .ok ()⟩ ⟨3, .ok ()⟩).1 () () rfl rfl,
    (tryJoin_join_semantics ⟨4, .error ⟨9⟩⟩ ⟨2, .ok ()⟩).2.1 ⟨9⟩ () rfl rfl,
    (tryJoin_join_semantics ⟨2, .ok ()⟩ ⟨4, .error ⟨9⟩⟩).2.2 ⟨9⟩ () rfl rfl⟩

/-- C4: listen returns an error exactly when the bind fails (the bind error
itself); a failure of the accept call exits the loop and listen returns Ok,
and the results of the spawned per-connection forward tasks (carried inside
the accept events) never influence the outcome. -/
theorem listen_error_policy (e : IOErr) (events rest : List AcceptEvent)
    (a : SocketAddr) (r : Except ForwardError Unit) :
    listen (.error e) events = .error e ∧
    listen (.ok ()) events = .ok () ∧
    acceptLoop (.acceptErr e :: rest) = .ok () ∧
    acceptLoop (.acceptOk a r :: rest) = acceptLoop rest :=
  ⟨rfl, acceptLoop_always_ok events, rfl, rfl⟩

/-- C5: immediately after Step 2 of a forward call whose upstream connect
succeeded, active_connections has grown by exactly one, the downstream
address is a member of peer_addresses, and completed_connections is
untouched; from the fresh State this yields counters 1 and 0 and exactly the
one address. Moreover forward with a successful connect always passes
through exactly this registered state. -/
theorem register_step_effect (a : SocketAddr) (st : State) :
    (registerConn a st).active_connections = st.active_connections + 1 ∧
    a ∈ (registerConn a st).by_addr ∧
    (registerConn a st).completed_connections = st.completed_connections ∧
    registerConn a State.new = ⟨1, 0, [a]⟩ ∧
    ∀ d1 d2 : Dir, (forward (.ok ()) d1 d2 a st).1 = registerConn a st ∨
      (forward (.ok ()) d1 d2 a st).1 = deregisterConn (registerConn a st) := by
  refine ⟨rfl, ?_, rfl, ?_, ?_⟩
  · show a ∈ hmInsert a (applyOp .incActive st).by_addr
    unfold hmInsert
    split
    · assumption
    · exact List.mem_cons_self a _
  · simp [registerConn, applyOp, hmInsert, State.new]
  · intro d1 d2
    cases h : (tryJoin d1 d2).result with
    | error e =>
        left
        simp [forward, h]
    | ok u =>
        right
        simp [forward, h]

/-- C6: peer-address insertion is membership-idempotent and the set grows
monotonically — inserting a present address leaves the key set unchanged,
registering the same address twice yields the same address set as once, and
no system step ever removes an address from peer_addresses. -/
theorem peer_addresses_idempotent_monotone :
    (∀ (a : SocketAddr) (l : List SocketAddr),
      hmInsert a (hmInsert a l) = hmInsert a l) ∧
    (∀ (a b : SocketAddr) (l : List SocketAddr), b ∈ l → b ∈ hmInsert a l) ∧
    (∀ (a : SocketAddr) (st : State),
      (registerConn a (registerConn a st)).by_addr = (registerConn a st).by_addr) ∧
    (∀ (sys : Sys) (l : Option Op) (sys' : Sys), SysStep sys l sys' →
      ∀ b ∈ sys.st.by_addr, b ∈ sys'.st.by_addr) := by
  have h1 : ∀ (a : SocketAddr) (l : List SocketAddr),
      hmInsert a (hmInsert a l) = hmInsert a l := by
    intro a l
    by_cases h : a ∈ l
    · simp [hmInsert, h]
    · simp [hmInsert, h]
  refine ⟨h1, ?_, ?_, ?_⟩
  · intro a b l hb
    unfold hmInsert
    split
    · exact hb
    · exact List.mem_cons_of_mem a hb
  · intro a st
    exact h1 a (applyOp .incActive st).by_addr
  · intro sys l sys' hstep b hb
    cases hstep with
    | spawn st cs s => exact hb
    | exec st pre post s k op hop => exact applyOp_by_addr_mono op st b hb

theorem peer_addresses_idempotent_monotone_witness :
    hmInsert addr0 (hmInsert addr0 []) = hmInsert addr0 [] ∧
    addr0 ∈ hmInsert addr1 [addr0] ∧
    (registerConn addr0 (registerConn addr0 State.new)).by_addr =
      (registerConn addr0 State.new).by_addr ∧
    addr0 ∈ (Sys.mk ⟨0, 0, [addr0]⟩ [(Script.connectFail, 0)]).st.by_addr :=
  ⟨peer_addresses_idempotent_monotone.1 addr0 [],
    peer_addresses_idempotent_monotone.2.1 addr1 addr0 [addr0] (by simp),
    peer_addresses_idempotent_monotone.2.2.1 addr0 State.new,
    peer_addresses_idempotent_monotone.2.2.2 ⟨⟨0, 0, [addr0]⟩, []⟩ none
      ⟨⟨0, 0, [addr0]⟩, [(Script.connectFail, 0)]⟩
      (SysStep.spawn ⟨0, 0, [addr0]⟩ [] Script.connectFail) addr0 (by simp)⟩

/-- C7: in every reachable configuration active_connections is
non-negative, and no system step ever decreases completed_connections —
every lock-guarded update either leaves it unchanged or increments it. -/
theorem reachable_active_nonneg_completed_monotone (sys : Sys) (h : Reachable sys) :
    0 ≤ sys.st.active_connections ∧
      ∀ (l : Option Op) (sys' : Sys), SysStep sys l sys' →
        sys.st.completed_connections ≤ sys'.st.completed_connections := by
  constructor
  · have hinv := reachable_inv h
    unfold Inv at hinv
    rw [hinv]
    exact sysActive_nonneg sys.conns
  · intro l sys' hstep
    cases hstep with
    | spawn st cs s => exact le_refl _
    | exec st pre post s k op hop =>
        cases op with
        | incActive => exact le_refl _
        | insertAddr a => exact le_refl _
        | decActive => exact le_refl _
        | incCompleted =>
            show st.completed_connections ≤ st.completed_connections + 1
            omega

theorem reachable_active_nonneg_completed_monotone_witness :
    0 ≤ Sys.start.st.active_connections ∧
      Sys.start.st.completed_connections ≤
        (Sys.mk State.new [(Script.connectFail, 0)]).st.completed_connections :=
  ⟨(reachable_active_nonneg_completed_monotone Sys.start Relation.ReflTransGen.refl).1,
    (reachable_active_nonneg_completed_monotone Sys.start Relation.ReflTransGen.refl).2
      none (Sys.mk State.new [(Script.connectFail, 0)])
      (SysStep.spawn State.new [] Script.connectFail)⟩

/-- C8: the copy loop is byte-exact — for every byte sequence and every
positive buffer size, the bytes written to the destination are exactly the
source bytes, in order, with no duplication, loss, or alteration; both relay
directions run this same loop on their own stream. -/
theorem copy_byte_exact (bufSize : Nat) (h : 1 ≤ bufSize) (src : List Nat) :
    copyRun bufSize src = src := by
  have H : ∀ (n : Nat) (s : List Nat), s.length ≤ n → copyRun bufSize s = s := by
    intro n
    induction n with
    | zero =>
        intro s hs
        have hnil : s = [] := List.length_eq_zero.mp (Nat.le_zero.mp hs)
        subst hnil
        rw [copyRun]
        simp
    | succ n ih =>
        intro s hs
        rw [copyRun]
        by_cases hc : s = [] ∨ bufSize = 0
        · rcases hc with hnil | hzero
          · subst hnil; simp
          · omega
        · rw [if_neg hc]
          push_neg at hc
          have hpos : 0 < s.length := List.length_pos.mpr hc.1
          have hlen : (s.drop bufSize).length ≤ n := by
            simp only [List.length_drop]
            omega
          rw [ih (s.drop bufSize) hlen, List.take_append_drop]
  exact H src.length src le_rfl

theorem copy_byte_exact_witness :
    1 ≤ 2 ∧ copyRun 2 [5, 6, 7] = [5, 6, 7] :=
  ⟨by decide, copy_byte_exact 2 (by decide) [5, 6, 7]⟩

/-- C9: in each relay direction the half-close of the destination write half
is emitted after that direction's copy completes at end of stream
(propagating end-of-stream to the peer), the half it closes is not among the
halves the opposite direction uses (so the half-close cannot terminate the
other copy), and a direction whose copy fails performs no half-close at
all. -/
theorem half_close_after_copy :
    clientToServer (.ok ()) = [.copyDone .downRead .upWrite, .halfClose .upWrite] ∧
    serverToClient (.ok ()) = [.copyDone .upRead .downWrite, .halfClose .downWrite] ∧
    Half.upWrite ∉ dirUses .upRead .downWrite ∧
    Half.downWrite ∉ dirUses .downRead .upWrite ∧
    (∀ e : IOErr, clientToServer (.error e) = []) ∧
    (∀ e : IOErr, serverToClient (.error e) = []) :=
  ⟨rfl, rfl, by decide, by decide, fun _ => rfl, fun _ => rfl⟩

/-- C10: the usize decrement of active_connections on src/main.rs line 110
cannot underflow — whenever a reachable configuration performs the decActive
update, the increment for that same connection already happened, and
active_connections is at least 1 at that moment. -/
theorem dec_active_no_underflow (sys sys' : Sys) (h : Reachable sys)
    (hs : SysStep sys (some Op.decActive) sys') :
    1 ≤ sys.st.active_connections := by
  have hinv := reachable_inv h
  unfold Inv at hinv
  cases hs with
  | exec st pre post s k op hop =>
      dsimp only at hinv ⊢
      rw [sysActive_append] at hinv
      cases s with
      | connectFail => simp [scriptOps] at hop
      | relayErr a =>
          rcases k with _ | _ | k <;> simp [scriptOps] at hop
      | relayOk a =>
          rcases k with _ | _ | _ | _ | k
          · simp [scriptOps] at hop
          · simp [scriptOps] at hop
          · have h1 : activeC (Script.relayOk a, 2) = 1 := by norm_num [activeC]
            have h2 := sysActive_nonneg pre
            have h3 := sysActive_nonneg post
            rw [h1] at hinv
            omega
          · simp [scriptOps] at hop
          · simp [scriptOps] at hop

theorem dec_active_no_underflow_witness :
    1 ≤ (Sys.mk ⟨1, 0, [addr0]⟩ [(Script.relayOk addr0, 2)]).st.active_connections := by
  refine dec_active_no_underflow (Sys.mk ⟨1, 0, [addr0]⟩ [(Script.relayOk addr0, 2)])
      ⟨applyOp Op.decActive ⟨1, 0, [addr0]⟩, [(Script.relayOk addr0, 3)]⟩ ?_ ?_
  · refine Relation.ReflTransGen.tail (Relation.ReflTransGen.tail
      (Relation.ReflTransGen.tail Relation.ReflTransGen.refl
        ⟨none, SysStep.spawn State.new [] (Script.relayOk addr0)⟩)
      ⟨some Op.incActive,
        SysStep.exec State.new [] [] (Script.relayOk addr0) 0 Op.incActive rfl⟩)
      ⟨some (Op.insertAddr addr0),
        SysStep.exec (applyOp Op.incActive State.new) [] [] (Script.relayOk addr0) 1
          (Op.insertAddr addr0) rfl⟩
  · exact SysStep.exec ⟨1, 0, [addr0]⟩ [] [] (Script.relayOk addr0) 2 Op.decActive rfl

end TProxy
